import Mathlib

/-!
Verification of the VaultSafe credential-add subsystem.

The definitions below are a shallow embedding of the repository code:
- vaultsafe/commands/add.py : the add command (duplicate-mnemonic check,
  credential construction, the two session commits);
- vaultsafe/utils/cli_utils.py : multiline_input and assert_db_init.

The cryptographic helpers (vaultsafe/utils/crypto_utils.py) and the
database models (vaultsafe/db/models.py) are not part of the provided
sources; the corresponding definitions are modelled from the spec and say
so in their doc comments.
-/

/-- Modelled from the spec: symmetric keys.  The repository file
vaultsafe/utils/crypto_utils.py is not among the provided sources.  Per
spec 4.1 and 4.2, a vault key is derived deterministically from the master
password, while a credential data key is freshly sampled randomness,
independent of the vault key.  We model the two origins as distinct
constructors; the random source is modelled as a counter so that distinct
draws yield distinct keys. -/
inductive Key where
  | fresh (n : Nat) : Key
  | derived (pw : String) : Key
deriving DecidableEq

/-- Plaintexts handed to the cipher: either a text field or a serialized
key (add.py encrypts the credential key itself under the vault key). -/
inductive Plain where
  | s (v : String) : Plain
  | k (v : Key) : Plain
deriving DecidableEq

/-- Modelled from the spec: an authenticated ciphertext produced by
encrypt (crypto_utils.py, not among the provided sources).  Spec 4.3
demands that decryption recover exactly the plaintext and detect any key
mismatch, so a ciphertext is modelled as the pair of its plaintext and the
key it was produced under. -/
structure Ciphertext where
  pt : Plain
  key : Key
deriving DecidableEq

/-- Modelled from the spec: encrypt(plaintext, key) from crypto_utils.py
(not among the provided sources), spec 4.3. -/
def encrypt (p : Plain) (k : Key) : Ciphertext := ⟨p, k⟩

/-- Modelled from the spec: derive_vault_key(master_key) from
crypto_utils.py (not among the provided sources), spec 4.1: deterministic
derivation from the master password. -/
def derive_vault_key (master_key : String) : Key := Key.derived master_key

/-- Modelled from the spec: generate_fernet_key() from crypto_utils.py
(not among the provided sources), spec 4.2: a fresh random key, sampled
from the random source whose state we model as a Nat counter. -/
def generate_fernet_key (rng : Nat) : Key := Key.fresh rng

/-- The value of an optional-field variable in add.py after the prompting
phase: the Python variable holds False when the flag was not supplied, and
the prompted string when it was. -/
inductive PyVal where
  | fls : PyVal
  | str (s : String) : PyVal
deriving DecidableEq

/-- The eight optional-field variables of add.py after prompting. -/
structure FieldInputs where
  username : PyVal
  password : PyVal
  url : PyVal
  primary_email : PyVal
  secondary_email : PyVal
  token : PyVal
  recovery_key : PyVal
  notes : PyVal
deriving DecidableEq

/-- Embedding of the Python expression
encrypt(x, credential_key) if x else None (add.py lines 119-126):
False and the empty string are falsy, any other string is truthy. -/
def encryptIfTruthy : PyVal → Key → Option Ciphertext
  | PyVal.fls, _ => none
  | PyVal.str s, k => if s = "" then none else some (encrypt (Plain.s s) k)

/-- A Credential row as constructed in add.py lines 131-142: name in the
clear, each optional field an optional ciphertext, and the sealed data
key. -/
structure CredentialRow where
  name : String
  url : Option Ciphertext
  username : Option Ciphertext
  password : Option Ciphertext
  encrypted_key : Ciphertext
  token : Option Ciphertext
  recovery_key : Option Ciphertext
  primary_email : Option Ciphertext
  secondary_email : Option Ciphertext
  notes : Option Ciphertext
deriving DecidableEq

/-- Embedding of add.py lines 113-142: encrypt each truthy field under the
credential key and seal the credential key under the vault key. -/
def buildCredential (name : String) (f : FieldInputs) (credentialKey vaultKey : Key) :
    CredentialRow :=
  { name := name
    url := encryptIfTruthy f.url credentialKey
    username := encryptIfTruthy f.username credentialKey
    password := encryptIfTruthy f.password credentialKey
    encrypted_key := encrypt (Plain.k credentialKey) vaultKey
    token := encryptIfTruthy f.token credentialKey
    recovery_key := encryptIfTruthy f.recovery_key credentialKey
    primary_email := encryptIfTruthy f.primary_email credentialKey
    secondary_email := encryptIfTruthy f.secondary_email credentialKey
    notes := encryptIfTruthy f.notes credentialKey }

/-- The credential row an add invocation constructs, with the keys filled
in the way add.py lines 113-128 fills them. -/
def addedCredential (name : String) (f : FieldInputs) (masterPasswd : String) (rng : Nat) :
    CredentialRow :=
  buildCredential name f (generate_fernet_key rng) (derive_vault_key masterPasswd)

/-- A Mnemonic row: alias text plus the owning credential, identified by
its index in the credentials table. -/
structure Mnemonic where
  name : String
  credId : Nat
deriving DecidableEq

/-- The persistent vault state: the Credential table and the Mnemonic
table. -/
structure Vault where
  credentials : List CredentialRow
  mnemonics : List Mnemonic
deriving DecidableEq

/-- All alias strings currently registered in the vault. -/
def aliasNames (v : Vault) : List String := v.mnemonics.map Mnemonic.name

/-- The vault of a freshly initialized database. -/
def emptyVault : Vault := { credentials := [], mnemonics := [] }

/-- Committing the new credential row (add.py lines 154-155): the row is
appended to the Credential table. -/
def commitCredential (v : Vault) (c : CredentialRow) : Vault :=
  { v with credentials := v.credentials ++ [c] }

/-- Modelled from the spec: inserting one Mnemonic row.  The Mnemonic
model (vaultsafe/db/models.py) is not among the provided sources; per the
spec the alias column is globally unique and the store enforces the unique
constraint, so inserting an already-present alias fails. -/
def insertMnemonic (v : Vault) (m : Mnemonic) : Option Vault :=
  if m.name ∈ aliasNames v then none
  else some { v with mnemonics := v.mnemonics ++ [m] }

/-- Modelled from the spec: the commit of the mnemonic rows (add.py lines
158-162) against a store with atomic multi-row transactions and
unique-constraint enforcement (spec 6): either every row inserts cleanly
and the transaction commits, or the transaction fails and changes
nothing. -/
def commitMnemonics : Vault → List Mnemonic → Option Vault
  | v, [] => some v
  | v, m :: ms =>
    match insertMnemonic v m with
    | none => none
    | some v2 => commitMnemonics v2 ms

/-- Embedding of the query in add.py lines 145-146: the names of the
existing Mnemonic rows whose name is among the requested mnemonics. -/
def existingMnemonicNames (v : Vault) (mnemonics : List String) : List String :=
  (v.mnemonics.filter fun m => decide (m.name ∈ mnemonics)).map Mnemonic.name

/-- Embedding of the loop in add.py lines 148-151: the first requested
mnemonic that is already registered, if any. -/
def firstDup (v : Vault) (mnemonics : List String) : Option String :=
  mnemonics.find? fun m => decide (m ∈ existingMnemonicNames v mnemonics)

/-- All requested aliases that already exist in the vault. -/
def offendingAliases (v : Vault) (mnemonics : List String) : List String :=
  mnemonics.filter fun m => decide (m ∈ aliasNames v)

/-- Outcome of one add invocation.  skipped models the early plain return
of add.py line 151 after printing a note that names one mnemonic; it is a
normal return, not a raised error.  constraintViolation models the second
commit failing on the modelled unique constraint. -/
inductive AddOutcome where
  | skipped (name : String) : AddOutcome
  | committed : AddOutcome
  | constraintViolation : AddOutcome
deriving DecidableEq

/-- Whether the outcome is the early skipped return. -/
def AddOutcome.isSkipped : AddOutcome → Bool
  | AddOutcome.skipped _ => true
  | _ => false

/-- The duplicate aliases named by the message the invocation printed. -/
def reportedDuplicates : AddOutcome → List String
  | AddOutcome.skipped d => [d]
  | _ => []

/-- Result of one add invocation: its outcome, the committed vault states
it produced in order, the vault state it leaves behind, and the state of
the random source afterwards. -/
structure AddResult where
  outcome : AddOutcome
  states : List Vault
  final : Vault
  rngOut : Nat
deriving DecidableEq

/-- Embedding of add.py lines 113-162: derive the vault key, draw a fresh
credential key, encrypt the truthy fields, build the row, check the
requested mnemonics against the existing ones and return early on a
duplicate, otherwise commit the credential row and then, in a second
transaction, the mnemonic rows. -/
def addCore (name : String) (mnemonics : List String) (f : FieldInputs)
    (masterPasswd : String) (rng : Nat) (v : Vault) : AddResult :=
  let vaultKey := derive_vault_key masterPasswd
  let credentialKey := generate_fernet_key rng
  let credential := buildCredential name f credentialKey vaultKey
  match firstDup v mnemonics with
  | some d => { outcome := AddOutcome.skipped d, states := [], final := v, rngOut := rng + 1 }
  | none =>
    let credId := v.credentials.length
    let v1 := commitCredential v credential
    match commitMnemonics v1 (mnemonics.map fun m => Mnemonic.mk m credId) with
    | some v2 =>
      { outcome := AddOutcome.committed, states := [v1, v2], final := v2, rngOut := rng + 1 }
    | none =>
      { outcome := AddOutcome.constraintViolation, states := [v1], final := v1, rngOut := rng + 1 }

/-- Result of running the add command from the top of add.py: the exit
code if the command exited early, whether the master-password prompt was
reached, and the committed states and final vault. -/
structure CmdResult where
  exitCode : Option Nat
  promptedMaster : Bool
  states : List Vault
  final : Vault
deriving DecidableEq

/-- Embedding of the add command entry (add.py lines 64-70 together with
assert_db_init from cli_utils.py lines 52-57): when the database file does
not exist the command exits with status 1 before the master-password
prompt; otherwise it prompts and runs the rest of the command. -/
def addCommand (dbExists : Bool) (name : String) (mnemonics : List String) (f : FieldInputs)
    (masterPasswd : String) (rng : Nat) (v : Vault) : CmdResult :=
  if dbExists then
    let r := addCore name mnemonics f masterPasswd rng v
    { exitCode := none, promptedMaster := true, states := r.states, final := r.final }
  else
    { exitCode := some 1, promptedMaster := false, states := [], final := v }

/-- The committed vault states reachable from a fresh vault through add
invocations, every committed point included. -/
inductive AddReachable : Vault → Prop where
  | init : AddReachable emptyVault
  | step {v s : Vault} (name : String) (mnemonics : List String) (f : FieldInputs)
      (masterPasswd : String) (rng : Nat) :
      AddReachable v → s ∈ (addCore name mnemonics f masterPasswd rng v).states →
      AddReachable s

/-- Embedding of the loop in multiline_input (cli_utils.py lines 32-42):
consume input lines, counting consecutive empty lines and resetting the
count on a non-empty one; when the count reaches three, stop without
appending the third empty line and return the accumulated lines.  none
means the input was exhausted before three consecutive empty lines. -/
def multilineLoop : List String → Nat → List String → Option (List String)
  | [], _, _ => none
  | line :: rest, emptyLineCount, lines =>
    if line = "" then
      if emptyLineCount + 1 = 3 then some lines
      else multilineLoop rest (emptyLineCount + 1) (lines ++ [line])
    else multilineLoop rest 0 (lines ++ [line])

/-- Embedding of multiline_input (cli_utils.py lines 29-43): run the loop
on the given input lines and join all but the last two accumulated lines
with newline. -/
def multiline_input (inputLines : List String) : Option String :=
  (multilineLoop inputLines 0 []).map fun lines =>
    "\n".intercalate lines.dropLast.dropLast

/-- Whether a list of lines contains three consecutive empty lines. -/
def hasTripleEmpty : List String → Bool
  | a :: b :: c :: rest =>
    (a = "" && b = "" && c = "") || hasTripleEmpty (b :: c :: rest)
  | _ => false

/-- One add request, for the concurrency model: the command-line inputs of
one add invocation plus the state of its random source. -/
structure Req where
  name : String
  mnemonics : List String
  fields : FieldInputs
  rng : Nat
deriving DecidableEq

/-- Program counter of one add process running the database steps of
add.py: before the duplicate check, after passing it, after committing the
credential row, finished, or returned early / failed. -/
inductive PC where
  | ready : PC
  | checked : PC
  | credDone : PC
  | done : PC
  | stopped : PC
deriving DecidableEq

/-- The local state of one add process. -/
structure Proc where
  pc : PC
  checkPassed : Bool
  credId : Nat
deriving DecidableEq

/-- Two add processes sharing one vault. -/
structure Sys where
  vault : Vault
  p1 : Proc
  p2 : Proc
deriving DecidableEq

/-- One atomic database step of an add process, following add.py: the
duplicate-check query (lines 145-151), the credential commit (lines
154-155), and the mnemonic commit (lines 158-162).  Each step is one
transaction against the shared vault; nothing ties consecutive steps of
one process together. -/
def stepProc (masterPasswd : String) (r : Req) (v : Vault) (p : Proc) : Vault × Proc :=
  match p.pc with
  | PC.ready =>
    match firstDup v r.mnemonics with
    | some _ => (v, { p with pc := PC.stopped })
    | none => (v, { p with pc := PC.checked, checkPassed := true })
  | PC.checked =>
    (commitCredential v
        (buildCredential r.name r.fields (generate_fernet_key r.rng)
          (derive_vault_key masterPasswd)),
      { p with pc := PC.credDone, credId := v.credentials.length })
  | PC.credDone =>
    match commitMnemonics v (r.mnemonics.map fun m => Mnemonic.mk m p.credId) with
    | some v2 => (v2, { p with pc := PC.done })
    | none => (v, { p with pc := PC.stopped })
  | PC.done => (v, p)
  | PC.stopped => (v, p)

/-- Scheduler step: true lets process 1 take its next database step,
false lets process 2. -/
def stepSys (masterPasswd : String) (r1 r2 : Req) (s : Sys) (b : Bool) : Sys :=
  if b then
    let vp := stepProc masterPasswd r1 s.vault s.p1
    { s with vault := vp.1, p1 := vp.2 }
  else
    let vp := stepProc masterPasswd r2 s.vault s.p2
    { s with vault := vp.1, p2 := vp.2 }

/-- Run the two processes under a schedule. -/
def runSys (masterPasswd : String) (r1 r2 : Req) : Sys → List Bool → Sys
  | s, [] => s
  | s, b :: bs => runSys masterPasswd r1 r2 (stepSys masterPasswd r1 r2 s b) bs

/-- Both processes at their first step, over the given vault. -/
def initSys (v : Vault) : Sys :=
  { vault := v
    p1 := { pc := PC.ready, checkPassed := false, credId := 0 }
    p2 := { pc := PC.ready, checkPassed := false, credId := 0 } }

/-- Whether a process has finished, normally or not. -/
def finished (p : Proc) : Bool :=
  match p.pc with
  | PC.done => true
  | PC.stopped => true
  | _ => false

/-- The claimed isolation property: the check-then-insert sequence of each
add runs as one atomic unit, i.e. every completed concurrent execution of
two adds is equivalent to one of the two serial executions. -/
def checkThenInsertSerializable (masterPasswd : String) (r1 r2 : Req) (v : Vault) : Prop :=
  ∀ sched : List Bool,
    finished (runSys masterPasswd r1 r2 (initSys v) sched).p1 = true →
    finished (runSys masterPasswd r1 r2 (initSys v) sched).p2 = true →
    (runSys masterPasswd r1 r2 (initSys v) sched).vault =
        (runSys masterPasswd r1 r2 (initSys v) [true, true, true, false, false, false]).vault ∨
    (runSys masterPasswd r1 r2 (initSys v) sched).vault =
        (runSys masterPasswd r1 r2 (initSys v) [false, false, false, true, true, true]).vault

/-- Field inputs with no optional flag supplied. -/
def noFieldInputs : FieldInputs :=
  { username := PyVal.fls, password := PyVal.fls, url := PyVal.fls,
    primary_email := PyVal.fls, secondary_email := PyVal.fls, token := PyVal.fls,
    recovery_key := PyVal.fls, notes := PyVal.fls }

/-- Field inputs where username and password were prompted with non-empty
values and the other flags were not supplied. -/
def exFields : FieldInputs :=
  { noFieldInputs with username := PyVal.str "alice", password := PyVal.str "hunter2" }

/-- A vault already holding one credential with the aliases g1 and g2. -/
def exVault : Vault :=
  { credentials := [addedCredential "Old" noFieldInputs "m" 7]
    mnemonics := [Mnemonic.mk "g1" 0, Mnemonic.mk "g2" 0] }

/-- Request of a first concurrent add, asking for the alias g1. -/
def reqA : Req := { name := "A", mnemonics := ["g1"], fields := noFieldInputs, rng := 0 }

/-- Request of a second concurrent add, also asking for the alias g1. -/
def reqB : Req := { name := "B", mnemonics := ["g1"], fields := noFieldInputs, rng := 1 }

/-- Invariant tying an alias requested by both concurrent adds to the
shared vault: a process that finished successfully has registered the
alias, and the two processes never both finish successfully. -/
def SameAliasInv (g : String) (s : Sys) : Prop :=
  (s.p1.pc = PC.done → g ∈ aliasNames s.vault) ∧
  (s.p2.pc = PC.done → g ∈ aliasNames s.vault) ∧
  ¬(s.p1.pc = PC.done ∧ s.p2.pc = PC.done)

/-- Two find? predicates agreeing on the elements of the list find the
same result. -/
theorem find?_congr_mem {α : Type} {p q : α → Bool} :
    ∀ (l : List α), (∀ x ∈ l, p x = q x) → l.find? p = l.find? q := by
  intro l
  induction l with
  | nil => intro _; rfl
  | cons x xs ih =>
    intro h
    have hx : p x = q x := h x (List.mem_cons_self x xs)
    simp only [List.find?]
    rw [hx]
    cases q x
    · exact ih fun y hy => h y (List.mem_cons_of_mem x hy)
    · rfl

/-- Membership in the duplicate-check query result. -/
theorem mem_existingMnemonicNames (v : Vault) (mnemonics : List String) (a : String) :
    a ∈ existingMnemonicNames v mnemonics ↔ a ∈ aliasNames v ∧ a ∈ mnemonics := by
  simp only [existingMnemonicNames, aliasNames, List.mem_map, List.mem_filter]
  constructor
  · rintro ⟨m, ⟨hm, hin⟩, rfl⟩
    exact ⟨⟨m, hm, rfl⟩, by simpa using hin⟩
  · rintro ⟨⟨m, hm, rfl⟩, hms⟩
    exact ⟨m, ⟨hm, by simpa using hms⟩, rfl⟩

/-- The duplicate check finds the first requested mnemonic that is already
an alias of the vault. -/
theorem firstDup_eq (v : Vault) (mnemonics : List String) :
    firstDup v mnemonics = mnemonics.find? fun m => decide (m ∈ aliasNames v) := by
  unfold firstDup
  apply find?_congr_mem
  intro x hx
  have := mem_existingMnemonicNames v mnemonics x
  by_cases hmem : x ∈ aliasNames v
  · simp [hmem, this, hx]
  · simp [hmem, this]

/-- The duplicate check passes exactly when no requested mnemonic is
already registered. -/
theorem firstDup_eq_none_iff (v : Vault) (mnemonics : List String) :
    firstDup v mnemonics = none ↔ ∀ m ∈ mnemonics, m ∉ aliasNames v := by
  rw [firstDup_eq, List.find?_eq_none]
  simp

/-- A successful single-row insert means the alias was free and appends
the row. -/
theorem insertMnemonic_eq_some {v : Vault} {m : Mnemonic} {v2 : Vault}
    (h : insertMnemonic v m = some v2) :
    m.name ∉ aliasNames v ∧ v2 = { v with mnemonics := v.mnemonics ++ [m] } := by
  unfold insertMnemonic at h
  split at h
  · cases h
  · exact ⟨by assumption, (Option.some.inj h).symm⟩

/-- A successful mnemonic transaction appends exactly the requested rows,
leaves the credential table alone, only involves aliases that were free
before the transaction, and preserves distinctness of the aliases. -/
theorem commitMnemonics_spec :
    ∀ (ms : List Mnemonic) {v v2 : Vault}, commitMnemonics v ms = some v2 →
      v2.credentials = v.credentials ∧
      v2.mnemonics = v.mnemonics ++ ms ∧
      (∀ m ∈ ms, m.name ∉ aliasNames v) ∧
      ((aliasNames v).Nodup → (aliasNames v2).Nodup) := by
  intro ms
  induction ms with
  | nil =>
    intro v v2 h
    simp only [commitMnemonics] at h
    cases h
    simp
  | cons m rest ih =>
    intro v v2 h
    simp only [commitMnemonics] at h
    cases hins : insertMnemonic v m with
    | none => rw [hins] at h; cases h
    | some v1 =>
      rw [hins] at h
      obtain ⟨hfree, hv1⟩ := insertMnemonic_eq_some hins
      obtain ⟨hc, hm, hpre, hnd⟩ := ih h
      subst hv1
      have halias : aliasNames { v with mnemonics := v.mnemonics ++ [m] } =
          aliasNames v ++ [m.name] := by
        simp [aliasNames]
      refine ⟨by simpa using hc, by simp [hm], ?_, ?_⟩
      · intro m2 hm2
        rcases List.mem_cons.mp hm2 with rfl | hm2
        · exact hfree
        · have := hpre m2 hm2
          rw [halias] at this
          intro hcontra
          exact this (List.mem_append_left _ hcontra)
      · intro hnodup
        apply hnd
        rw [halias, List.nodup_append_comm]
        simpa [List.nodup_cons] using ⟨hfree, hnodup⟩

/-- C10: when the vault database file does not exist, the add command
exits with status 1 before the master-password prompt is ever reached,
commits nothing, and leaves the vault unchanged. -/
theorem add_no_db_exits_early (name : String) (mnemonics : List String) (f : FieldInputs)
    (masterPasswd : String) (rng : Nat) (v : Vault) :
    addCommand false name mnemonics f masterPasswd rng v =
      { exitCode := some 1, promptedMaster := false, states := [], final := v } := by
  rfl

/-- C1 counterexample: adding a credential with the single mnemonic g1 to
the empty vault yields two committed states, and at the first committed
point the credential row is already visible to readers while none of its
mnemonic rows exists yet. -/
theorem add_partial_commit_visible :
    ((addCore "Gmail" ["g1"] noFieldInputs "m" 0 emptyVault).states.map
        fun s => (s.credentials.length, s.mnemonics.length)) = [(1, 0), (1, 1)] := by
  rfl

/-- C1 amended: when no requested mnemonic already exists, add commits the
credential row in a first transaction that contains no new mnemonic row,
and only on the success path does a second transaction append exactly the
requested mnemonic rows, so the credential together with all its aliases
is present only from the second committed point on. -/
theorem add_two_phase_commit (name : String) (mnemonics : List String) (f : FieldInputs)
    (masterPasswd : String) (rng : Nat) (v : Vault)
    (h : firstDup v mnemonics = none) :
    (addCore name mnemonics f masterPasswd rng v).states.head? =
        some (commitCredential v (addedCredential name f masterPasswd rng)) ∧
    (commitCredential v (addedCredential name f masterPasswd rng)).mnemonics = v.mnemonics ∧
    ((addCore name mnemonics f masterPasswd rng v).outcome = AddOutcome.committed →
      (addCore name mnemonics f masterPasswd rng v).final.credentials =
          v.credentials ++ [addedCredential name f masterPasswd rng] ∧
      (addCore name mnemonics f masterPasswd rng v).final.mnemonics =
          v.mnemonics ++ mnemonics.map fun m => Mnemonic.mk m v.credentials.length) := by
  simp only [addCore, addedCredential, h]
  cases hcm : commitMnemonics (commitCredential v
      (buildCredential name f (generate_fernet_key rng) (derive_vault_key masterPasswd)))
      (mnemonics.map fun m => Mnemonic.mk m v.credentials.length) with
  | none =>
    refine ⟨rfl, rfl, ?_⟩
    intro hc
    cases hc
  | some v2 =>
    obtain ⟨hc, hm, _, _⟩ := commitMnemonics_spec _ hcm
    refine ⟨rfl, rfl, fun _ => ⟨?_, ?_⟩⟩
    · simpa [commitCredential] using hc
    · simpa [commitCredential] using hm

/-- Witness for the amended C1 theorem at a concrete input. -/
theorem add_two_phase_commit_witness :
    (addCore "Gmail" ["g1"] noFieldInputs "m" 0 emptyVault).states.head? =
        some (commitCredential emptyVault (addedCredential "Gmail" noFieldInputs "m" 0)) ∧
    (commitCredential emptyVault (addedCredential "Gmail" noFieldInputs "m" 0)).mnemonics =
        emptyVault.mnemonics ∧
    ((addCore "Gmail" ["g1"] noFieldInputs "m" 0 emptyVault).outcome = AddOutcome.committed →
      (addCore "Gmail" ["g1"] noFieldInputs "m" 0 emptyVault).final.credentials =
          emptyVault.credentials ++ [addedCredential "Gmail" noFieldInputs "m" 0] ∧
      (addCore "Gmail" ["g1"] noFieldInputs "m" 0 emptyVault).final.mnemonics =
          emptyVault.mnemonics ++
            ["g1"].map fun m => Mnemonic.mk m emptyVault.credentials.length) :=
  add_two_phase_commit "Gmail" ["g1"] noFieldInputs "m" 0 emptyVault (by decide)

/-- C3: when some requested mnemonic already exists anywhere in the vault,
add takes the early skipped return, commits no state, and leaves the vault
exactly as it was. -/
theorem add_duplicate_leaves_vault_unchanged (name : String) (mnemonics : List String)
    (f : FieldInputs) (masterPasswd : String) (rng : Nat) (v : Vault) (d : String)
    (hd : d ∈ mnemonics) (hex : d ∈ aliasNames v) :
    (addCore name mnemonics f masterPasswd rng v).outcome.isSkipped = true ∧
    (addCore name mnemonics f masterPasswd rng v).states = [] ∧
    (addCore name mnemonics f masterPasswd rng v).final = v := by
  have hsome : firstDup v mnemonics ≠ none := by
    intro hfd
    exact (firstDup_eq_none_iff v mnemonics).mp hfd d hd hex
  cases hfd : firstDup v mnemonics with
  | none => exact absurd hfd hsome
  | some d2 =>
    simp [addCore, hfd, AddOutcome.isSkipped]

/-- Witness for the C3 theorem at a concrete input. -/
theorem add_duplicate_leaves_vault_unchanged_witness :
    (addCore "New" ["g1", "g3"] noFieldInputs "m" 0 exVault).outcome.isSkipped = true ∧
    (addCore "New" ["g1", "g3"] noFieldInputs "m" 0 exVault).states = [] ∧
    (addCore "New" ["g1", "g3"] noFieldInputs "m" 0 exVault).final = exVault :=
  add_duplicate_leaves_vault_unchanged "New" ["g1", "g3"] noFieldInputs "m" 0 exVault "g1"
    (by decide) (by decide)

/-- C4 counterexample: with both g1 and g2 already registered, the request
for them is answered by a normal skipped return whose printed note names
only g1, not the full set of offending aliases. -/
theorem add_duplicate_report_partial :
    (addCore "New" ["g1", "g2"] noFieldInputs "m" 0 exVault).outcome =
        AddOutcome.skipped "g1" ∧
    reportedDuplicates (addCore "New" ["g1", "g2"] noFieldInputs "m" 0 exVault).outcome =
        ["g1"] ∧
    offendingAliases exVault ["g1", "g2"] = ["g1", "g2"] := by
  refine ⟨?_, ?_, by decide⟩ <;> rfl

/-- C4 amended: when at least one requested alias is already registered,
add returns normally with the skipped outcome naming exactly the first
offending alias in request order, raises nothing, and writes nothing. -/
theorem add_duplicate_reports_first (name : String) (mnemonics : List String)
    (f : FieldInputs) (masterPasswd : String) (rng : Nat) (v : Vault) (d : String)
    (h : (mnemonics.find? fun m => decide (m ∈ aliasNames v)) = some d) :
    (addCore name mnemonics f masterPasswd rng v).outcome = AddOutcome.skipped d ∧
    (addCore name mnemonics f masterPasswd rng v).states = [] ∧
    (addCore name mnemonics f masterPasswd rng v).final = v := by
  have hfd : firstDup v mnemonics = some d := by rw [firstDup_eq]; exact h
  simp [addCore, hfd]

/-- Witness for the amended C4 theorem at a concrete input. -/
theorem add_duplicate_reports_first_witness :
    (addCore "New" ["g2", "g1"] noFieldInputs "m" 0 exVault).outcome =
        AddOutcome.skipped "g2" ∧
    (addCore "New" ["g2", "g1"] noFieldInputs "m" 0 exVault).states = [] ∧
    (addCore "New" ["g2", "g1"] noFieldInputs "m" 0 exVault).final = exVault :=
  add_duplicate_reports_first "New" ["g2", "g1"] noFieldInputs "m" 0 exVault "g2" (by decide)

/-- Each committed state produced by one add invocation keeps the alias
texts pairwise distinct, provided they were distinct before. -/
theorem addCore_states_nodup {v : Vault} (name : String) (mnemonics : List String)
    (f : FieldInputs) (masterPasswd : String) (rng : Nat)
    (hv : (aliasNames v).Nodup) :
    ∀ s ∈ (addCore name mnemonics f masterPasswd rng v).states, (aliasNames s).Nodup := by
  intro s hs
  cases hfd : firstDup v mnemonics with
  | some d =>
    simp [addCore, hfd] at hs
  | none =>
    simp only [addCore, hfd] at hs
    have hv1 : aliasNames (commitCredential v
        (buildCredential name f (generate_fernet_key rng) (derive_vault_key masterPasswd))) =
        aliasNames v := rfl
    cases hcm : commitMnemonics (commitCredential v
        (buildCredential name f (generate_fernet_key rng) (derive_vault_key masterPasswd)))
        (mnemonics.map fun m => Mnemonic.mk m v.credentials.length) with
    | none =>
      rw [hcm] at hs
      simp at hs
      rw [hs, hv1]
      exact hv
    | some v2 =>
      rw [hcm] at hs
      simp at hs
      obtain ⟨_, _, _, hnd⟩ := commitMnemonics_spec _ hcm
      rcases hs with rfl | rfl
      · rw [hv1]; exact hv
      · exact hnd (by rw [hv1]; exact hv)

/-- C2: every committed vault state reachable from a fresh vault by add
invocations, the intermediate committed points included, has pairwise
distinct mnemonic alias texts — also when one request repeats an alias. -/
theorem add_preserves_alias_uniqueness (s : Vault) (h : AddReachable s) :
    (aliasNames s).Nodup := by
  induction h with
  | init => simp [emptyVault, aliasNames]
  | step name mnemonics f masterPasswd rng hv hmem ih =>
    exact addCore_states_nodup name mnemonics f masterPasswd rng ih _ hmem

/-- Witness for the C2 theorem: the final state of an add that repeats the
mnemonic g1 twice in one request is reachable and keeps aliases unique. -/
theorem add_preserves_alias_uniqueness_witness :
    (aliasNames (addCore "A" ["g1", "g1"] noFieldInputs "m" 0 emptyVault).final).Nodup :=
  add_preserves_alias_uniqueness _
    (AddReachable.step "A" ["g1", "g1"] noFieldInputs "m" 0 AddReachable.init (by decide))

/-- When the duplicate check passes, the credential row that add leaves in
the table is exactly the constructed one, appended at the end. -/
theorem addCore_final_credentials (name : String) (mnemonics : List String) (f : FieldInputs)
    (masterPasswd : String) (rng : Nat) (v : Vault)
    (h : firstDup v mnemonics = none) :
    (addCore name mnemonics f masterPasswd rng v).final.credentials =
      v.credentials ++ [addedCredential name f masterPasswd rng] := by
  simp only [addCore, addedCredential, h]
  cases hcm : commitMnemonics (commitCredential v
      (buildCredential name f (generate_fernet_key rng) (derive_vault_key masterPasswd)))
      (mnemonics.map fun m => Mnemonic.mk m v.credentials.length) with
  | none => rfl
  | some v2 =>
    obtain ⟨hc, _, _, _⟩ := commitMnemonics_spec _ hcm
    simpa [commitCredential] using hc

/-- The cipher output of a truthy field never coincides with the
encryption of the empty string. -/
theorem encryptIfTruthy_ne_empty (x : PyVal) (ck k : Key) :
    encryptIfTruthy x ck ≠ some (encrypt (Plain.s "") k) := by
  cases x with
  | fls => simp [encryptIfTruthy]
  | str s =>
    by_cases hs : s = "" <;> simp [encryptIfTruthy, hs, encrypt]

/-- C5: when the duplicate check passes, the stored credential row is the
constructed one; its sealed key is the fresh credential key encrypted
under the vault key derived from the master password; every present field
is encrypted under that fresh key; and the key is drawn from the random
source, never equals a derived vault key, differs between distinct draws,
and the random source is advanced so the next credential draws a new
key. -/
theorem add_envelope_encryption (name : String) (mnemonics : List String) (f : FieldInputs)
    (masterPasswd : String) (rng : Nat) (v : Vault)
    (h : firstDup v mnemonics = none) :
    (addCore name mnemonics f masterPasswd rng v).final.credentials =
        v.credentials ++ [addedCredential name f masterPasswd rng] ∧
    (addedCredential name f masterPasswd rng).encrypted_key =
        encrypt (Plain.k (generate_fernet_key rng)) (derive_vault_key masterPasswd) ∧
    (∀ s : String, s ≠ "" → f.username = PyVal.str s →
      (addedCredential name f masterPasswd rng).username =
        some (encrypt (Plain.s s) (generate_fernet_key rng))) ∧
    (∀ s : String, s ≠ "" → f.password = PyVal.str s →
      (addedCredential name f masterPasswd rng).password =
        some (encrypt (Plain.s s) (generate_fernet_key rng))) ∧
    (∀ s : String, s ≠ "" → f.url = PyVal.str s →
      (addedCredential name f masterPasswd rng).url =
        some (encrypt (Plain.s s) (generate_fernet_key rng))) ∧
    (∀ s : String, s ≠ "" → f.primary_email = PyVal.str s →
      (addedCredential name f masterPasswd rng).primary_email =
        some (encrypt (Plain.s s) (generate_fernet_key rng))) ∧
    (∀ s : String, s ≠ "" → f.secondary_email = PyVal.str s →
      (addedCredential name f masterPasswd rng).secondary_email =
        some (encrypt (Plain.s s) (generate_fernet_key rng))) ∧
    (∀ s : String, s ≠ "" → f.token = PyVal.str s →
      (addedCredential name f masterPasswd rng).token =
        some (encrypt (Plain.s s) (generate_fernet_key rng))) ∧
    (∀ s : String, s ≠ "" → f.recovery_key = PyVal.str s →
      (addedCredential name f masterPasswd rng).recovery_key =
        some (encrypt (Plain.s s) (generate_fernet_key rng))) ∧
    (∀ s : String, s ≠ "" → f.notes = PyVal.str s →
      (addedCredential name f masterPasswd rng).notes =
        some (encrypt (Plain.s s) (generate_fernet_key rng))) ∧
    generate_fernet_key rng = Key.fresh rng ∧
    (∀ pw : String, generate_fernet_key rng ≠ derive_vault_key pw) ∧
    (∀ n : Nat, n ≠ rng → generate_fernet_key n ≠ generate_fernet_key rng) ∧
    (addCore name mnemonics f masterPasswd rng v).rngOut = rng + 1 := by
  refine ⟨addCore_final_credentials name mnemonics f masterPasswd rng v h, rfl,
    ?_, ?_, ?_, ?_, ?_, ?_, ?_, ?_, rfl, ?_, ?_, ?_⟩
  · intro s hs hf; simp [addedCredential, buildCredential, encryptIfTruthy, hf, hs]
  · intro s hs hf; simp [addedCredential, buildCredential, encryptIfTruthy, hf, hs]
  · intro s hs hf; simp [addedCredential, buildCredential, encryptIfTruthy, hf, hs]
  · intro s hs hf; simp [addedCredential, buildCredential, encryptIfTruthy, hf, hs]
  · intro s hs hf; simp [addedCredential, buildCredential, encryptIfTruthy, hf, hs]
  · intro s hs hf; simp [addedCredential, buildCredential, encryptIfTruthy, hf, hs]
  · intro s hs hf; simp [addedCredential, buildCredential, encryptIfTruthy, hf, hs]
  · intro s hs hf; simp [addedCredential, buildCredential, encryptIfTruthy, hf, hs]
  · intro pw; simp [generate_fernet_key, derive_vault_key]
  · intro n hn; simp [generate_fernet_key]; exact hn
  · simp only [addCore, h]
    cases hcm : commitMnemonics (commitCredential v
        (buildCredential name f (generate_fernet_key rng) (derive_vault_key masterPasswd)))
        (mnemonics.map fun m => Mnemonic.mk m v.credentials.length) with
    | none => rfl
    | some v2 => rfl

/-- Witness for the C5 theorem at a concrete input. -/
theorem add_envelope_encryption_witness :
    (addCore "Gmail" ["g1"] exFields "m" 0 emptyVault).final.credentials =
        emptyVault.credentials ++ [addedCredential "Gmail" exFields "m" 0] ∧
    (addedCredential "Gmail" exFields "m" 0).encrypted_key =
        encrypt (Plain.k (generate_fernet_key 0)) (derive_vault_key "m") ∧
    (∀ s : String, s ≠ "" → exFields.username = PyVal.str s →
      (addedCredential "Gmail" exFields "m" 0).username =
        some (encrypt (Plain.s s) (generate_fernet_key 0))) ∧
    (∀ s : String, s ≠ "" → exFields.password = PyVal.str s →
      (addedCredential "Gmail" exFields "m" 0).password =
        some (encrypt (Plain.s s) (generate_fernet_key 0))) ∧
    (∀ s : String, s ≠ "" → exFields.url = PyVal.str s →
      (addedCredential "Gmail" exFields "m" 0).url =
        some (encrypt (Plain.s s) (generate_fernet_key 0))) ∧
    (∀ s : String, s ≠ "" → exFields.primary_email = PyVal.str s →
      (addedCredential "Gmail" exFields "m" 0).primary_email =
        some (encrypt (Plain.s s) (generate_fernet_key 0))) ∧
    (∀ s : String, s ≠ "" → exFields.secondary_email = PyVal.str s →
      (addedCredential "Gmail" exFields "m" 0).secondary_email =
        some (encrypt (Plain.s s) (generate_fernet_key 0))) ∧
    (∀ s : String, s ≠ "" → exFields.token = PyVal.str s →
      (addedCredential "Gmail" exFields "m" 0).token =
        some (encrypt (Plain.s s) (generate_fernet_key 0))) ∧
    (∀ s : String, s ≠ "" → exFields.recovery_key = PyVal.str s →
      (addedCredential "Gmail" exFields "m" 0).recovery_key =
        some (encrypt (Plain.s s) (generate_fernet_key 0))) ∧
    (∀ s : String, s ≠ "" → exFields.notes = PyVal.str s →
      (addedCredential "Gmail" exFields "m" 0).notes =
        some (encrypt (Plain.s s) (generate_fernet_key 0))) ∧
    generate_fernet_key 0 = Key.fresh 0 ∧
    (∀ pw : String, generate_fernet_key 0 ≠ derive_vault_key pw) ∧
    (∀ n : Nat, n ≠ 0 → generate_fernet_key n ≠ generate_fernet_key 0) ∧
    (addCore "Gmail" ["g1"] exFields "m" 0 emptyVault).rngOut = 0 + 1 :=
  add_envelope_encryption "Gmail" ["g1"] exFields "m" 0 emptyVault (by decide)

/-- C6: when the duplicate check passes, the stored credential row is the
constructed one, and every optional field whose flag was not supplied is
recorded as not present — no ciphertext at all — and in particular is
never the encryption of an empty string. -/
theorem add_absent_field_not_stored (name : String) (mnemonics : List String)
    (f : FieldInputs) (masterPasswd : String) (rng : Nat) (v : Vault)
    (h : firstDup v mnemonics = none) :
    (addCore name mnemonics f masterPasswd rng v).final.credentials =
        v.credentials ++ [addedCredential name f masterPasswd rng] ∧
    (f.username = PyVal.fls → (addedCredential name f masterPasswd rng).username = none) ∧
    (f.password = PyVal.fls → (addedCredential name f masterPasswd rng).password = none) ∧
    (f.url = PyVal.fls → (addedCredential name f masterPasswd rng).url = none) ∧
    (f.primary_email = PyVal.fls →
      (addedCredential name f masterPasswd rng).primary_email = none) ∧
    (f.secondary_email = PyVal.fls →
      (addedCredential name f masterPasswd rng).secondary_email = none) ∧
    (f.token = PyVal.fls → (addedCredential name f masterPasswd rng).token = none) ∧
    (f.recovery_key = PyVal.fls →
      (addedCredential name f masterPasswd rng).recovery_key = none) ∧
    (f.notes = PyVal.fls → (addedCredential name f masterPasswd rng).notes = none) ∧
    (∀ k : Key, (addedCredential name f masterPasswd rng).username ≠
      some (encrypt (Plain.s "") k)) ∧
    (∀ k : Key, (addedCredential name f masterPasswd rng).password ≠
      some (encrypt (Plain.s "") k)) ∧
    (∀ k : Key, (addedCredential name f masterPasswd rng).url ≠
      some (encrypt (Plain.s "") k)) ∧
    (∀ k : Key, (addedCredential name f masterPasswd rng).primary_email ≠
      some (encrypt (Plain.s "") k)) ∧
    (∀ k : Key, (addedCredential name f masterPasswd rng).secondary_email ≠
      some (encrypt (Plain.s "") k)) ∧
    (∀ k : Key, (addedCredential name f masterPasswd rng).token ≠
      some (encrypt (Plain.s "") k)) ∧
    (∀ k : Key, (addedCredential name f masterPasswd rng).recovery_key ≠
      some (encrypt (Plain.s "") k)) ∧
    (∀ k : Key, (addedCredential name f masterPasswd rng).notes ≠
      some (encrypt (Plain.s "") k)) := by
  refine ⟨addCore_final_credentials name mnemonics f masterPasswd rng v h,
    ?_, ?_, ?_, ?_, ?_, ?_, ?_, ?_,
    fun k => encryptIfTruthy_ne_empty f.username _ k,
    fun k => encryptIfTruthy_ne_empty f.password _ k,
    fun k => encryptIfTruthy_ne_empty f.url _ k,
    fun k => encryptIfTruthy_ne_empty f.primary_email _ k,
    fun k => encryptIfTruthy_ne_empty f.secondary_email _ k,
    fun k => encryptIfTruthy_ne_empty f.token _ k,
    fun k => encryptIfTruthy_ne_empty f.recovery_key _ k,
    fun k => encryptIfTruthy_ne_empty f.notes _ k⟩ <;>
  · intro hf
    simp [addedCredential, buildCredential, encryptIfTruthy, hf]

/-- Witness for the C6 theorem at a concrete input. -/
theorem add_absent_field_not_stored_witness :
    (addCore "Gmail" ["g1"] noFieldInputs "m" 0 emptyVault).final.credentials =
        emptyVault.credentials ++ [addedCredential "Gmail" noFieldInputs "m" 0] ∧
    (noFieldInputs.username = PyVal.fls →
      (addedCredential "Gmail" noFieldInputs "m" 0).username = none) ∧
    (noFieldInputs.password = PyVal.fls →
      (addedCredential "Gmail" noFieldInputs "m" 0).password = none) ∧
    (noFieldInputs.url = PyVal.fls →
      (addedCredential "Gmail" noFieldInputs "m" 0).url = none) ∧
    (noFieldInputs.primary_email = PyVal.fls →
      (addedCredential "Gmail" noFieldInputs "m" 0).primary_email = none) ∧
    (noFieldInputs.secondary_email = PyVal.fls →
      (addedCredential "Gmail" noFieldInputs "m" 0).secondary_email = none) ∧
    (noFieldInputs.token = PyVal.fls →
      (addedCredential "Gmail" noFieldInputs "m" 0).token = none) ∧
    (noFieldInputs.recovery_key = PyVal.fls →
      (addedCredential "Gmail" noFieldInputs "m" 0).recovery_key = none) ∧
    (noFieldInputs.notes = PyVal.fls →
      (addedCredential "Gmail" noFieldInputs "m" 0).notes = none) ∧
    (∀ k : Key, (addedCredential "Gmail" noFieldInputs "m" 0).username ≠
      some (encrypt (Plain.s "") k)) ∧
    (∀ k : Key, (addedCredential "Gmail" noFieldInputs "m" 0).password ≠
      some (encrypt (Plain.s "") k)) ∧
    (∀ k : Key, (addedCredential "Gmail" noFieldInputs "m" 0).url ≠
      some (encrypt (Plain.s "") k)) ∧
    (∀ k : Key, (addedCredential "Gmail" noFieldInputs "m" 0).primary_email ≠
      some (encrypt (Plain.s "") k)) ∧
    (∀ k : Key, (addedCredential "Gmail" noFieldInputs "m" 0).secondary_email ≠
      some (encrypt (Plain.s "") k)) ∧
    (∀ k : Key, (addedCredential "Gmail" noFieldInputs "m" 0).token ≠
      some (encrypt (Plain.s "") k)) ∧
    (∀ k : Key, (addedCredential "Gmail" noFieldInputs "m" 0).recovery_key ≠
      some (encrypt (Plain.s "") k)) ∧
    (∀ k : Key, (addedCredential "Gmail" noFieldInputs "m" 0).notes ≠
      some (encrypt (Plain.s "") k)) :=
  add_absent_field_not_stored "Gmail" ["g1"] noFieldInputs "m" 0 emptyVault (by decide)

/-- The add operation depends on the optional-field inputs only through
the credential row it builds. -/
theorem addCore_congr_fields (name : String) (mnemonics : List String) (f1 f2 : FieldInputs)
    (masterPasswd : String) (rng : Nat) (v : Vault)
    (h : addedCredential name f1 masterPasswd rng = addedCredential name f2 masterPasswd rng) :
    addCore name mnemonics f1 masterPasswd rng v =
      addCore name mnemonics f2 masterPasswd rng v := by
  have h2 : buildCredential name f1 (generate_fernet_key rng) (derive_vault_key masterPasswd) =
      buildCredential name f2 (generate_fernet_key rng) (derive_vault_key masterPasswd) := h
  unfold addCore
  dsimp only
  rw [h2]

/-- C8: for each optional field, supplying the flag and entering the empty
string at the prompt gives exactly the same add result as not supplying
the flag, and the field is stored as not present. -/
theorem add_empty_prompt_like_absent (name : String) (mnemonics : List String)
    (f : FieldInputs) (masterPasswd : String) (rng : Nat) (v : Vault) :
    (addCore name mnemonics { f with username := PyVal.str "" } masterPasswd rng v =
        addCore name mnemonics { f with username := PyVal.fls } masterPasswd rng v) ∧
    (addCore name mnemonics { f with password := PyVal.str "" } masterPasswd rng v =
        addCore name mnemonics { f with password := PyVal.fls } masterPasswd rng v) ∧
    (addCore name mnemonics { f with url := PyVal.str "" } masterPasswd rng v =
        addCore name mnemonics { f with url := PyVal.fls } masterPasswd rng v) ∧
    (addCore name mnemonics { f with primary_email := PyVal.str "" } masterPasswd rng v =
        addCore name mnemonics { f with primary_email := PyVal.fls } masterPasswd rng v) ∧
    (addCore name mnemonics { f with secondary_email := PyVal.str "" } masterPasswd rng v =
        addCore name mnemonics { f with secondary_email := PyVal.fls } masterPasswd rng v) ∧
    (addCore name mnemonics { f with token := PyVal.str "" } masterPasswd rng v =
        addCore name mnemonics { f with token := PyVal.fls } masterPasswd rng v) ∧
    (addCore name mnemonics { f with recovery_key := PyVal.str "" } masterPasswd rng v =
        addCore name mnemonics { f with recovery_key := PyVal.fls } masterPasswd rng v) ∧
    (addCore name mnemonics { f with notes := PyVal.str "" } masterPasswd rng v =
        addCore name mnemonics { f with notes := PyVal.fls } masterPasswd rng v) ∧
    (addedCredential name { f with username := PyVal.str "" } masterPasswd rng).username
        = none ∧
    (addedCredential name { f with password := PyVal.str "" } masterPasswd rng).password
        = none ∧
    (addedCredential name { f with url := PyVal.str "" } masterPasswd rng).url = none ∧
    (addedCredential name
        { f with primary_email := PyVal.str "" } masterPasswd rng).primary_email = none ∧
    (addedCredential name
        { f with secondary_email := PyVal.str "" } masterPasswd rng).secondary_email = none ∧
    (addedCredential name { f with token := PyVal.str "" } masterPasswd rng).token = none ∧
    (addedCredential name
        { f with recovery_key := PyVal.str "" } masterPasswd rng).recovery_key = none ∧
    (addedCredential name { f with notes := PyVal.str "" } masterPasswd rng).notes = none := by
  refine ⟨addCore_congr_fields name mnemonics _ _ masterPasswd rng v ?_,
    addCore_congr_fields name mnemonics _ _ masterPasswd rng v ?_,
    addCore_congr_fields name mnemonics _ _ masterPasswd rng v ?_,
    addCore_congr_fields name mnemonics _ _ masterPasswd rng v ?_,
    addCore_congr_fields name mnemonics _ _ masterPasswd rng v ?_,
    addCore_congr_fields name mnemonics _ _ masterPasswd rng v ?_,
    addCore_congr_fields name mnemonics _ _ masterPasswd rng v ?_,
    addCore_congr_fields name mnemonics _ _ masterPasswd rng v ?_,
    ?_, ?_, ?_, ?_, ?_, ?_, ?_, ?_⟩ <;>
  simp [addedCredential, buildCredential, encryptIfTruthy]

/-- Prepending a line preserves the presence of three consecutive empty
lines. -/
theorem hasTripleEmpty_cons (x : String) (t : List String)
    (h : hasTripleEmpty t = true) : hasTripleEmpty (x :: t) = true := by
  match t with
  | [] => simp [hasTripleEmpty] at h
  | [a] => simp [hasTripleEmpty] at h
  | [a, b] => simp [hasTripleEmpty] at h
  | a :: b :: c :: rest =>
    have : hasTripleEmpty (x :: a :: b :: c :: rest) =
        ((x = "" && a = "" && b = "") || hasTripleEmpty (a :: b :: c :: rest)) := rfl
    rw [this, h]
    simp

/-- Prepending any lines preserves the presence of three consecutive empty
lines. -/
theorem hasTripleEmpty_append_left (l1 l2 : List String)
    (h : hasTripleEmpty l2 = true) : hasTripleEmpty (l1 ++ l2) = true := by
  induction l1 with
  | nil => simpa using h
  | cons x xs ih => exact hasTripleEmpty_cons x _ ih

/-- Running the multiline loop over the lines before the first run of
three consecutive empty lines: the loop consumes them and the first two
terminator lines, accumulating all of them, and stops at the third
terminator line without accumulating it. -/
theorem multilineLoop_reaches (post : List String) :
    ∀ (pre : List String) (cnt : Nat) (acc : List String), cnt ≤ 2 →
      hasTripleEmpty (List.replicate cnt "" ++ pre ++ ["", ""]) = false →
      multilineLoop (pre ++ ["", "", ""] ++ post) cnt acc = some (acc ++ pre ++ ["", ""]) := by
  intro pre
  induction pre with
  | nil =>
    intro cnt acc hcnt h
    interval_cases cnt
    · simp [multilineLoop]
    · simp [hasTripleEmpty] at h
    · simp [hasTripleEmpty] at h
  | cons x xs ih =>
    intro cnt acc hcnt h
    by_cases hx : x = ""
    · subst hx
      have hcnt1 : cnt ≤ 1 := by
        by_contra hgt
        have hc2 : cnt = 2 := by omega
        subst hc2
        simp [hasTripleEmpty] at h
      have hne : ¬(cnt + 1 = 3) := by omega
      have hstep : multilineLoop (("" :: xs) ++ ["", "", ""] ++ post) cnt acc =
          multilineLoop (xs ++ ["", "", ""] ++ post) (cnt + 1) (acc ++ [""]) := by
        simp [multilineLoop, hne]
      rw [hstep]
      have hrep : List.replicate (cnt + 1) "" ++ xs ++ ["", ""] =
          List.replicate cnt "" ++ ("" :: xs) ++ ["", ""] := by
        rw [List.replicate_succ']
        simp
      rw [ih (cnt + 1) (acc ++ [""]) (by omega) (by rw [hrep]; exact h)]
      simp
    · have hstep : multilineLoop ((x :: xs) ++ ["", "", ""] ++ post) cnt acc =
          multilineLoop (xs ++ ["", "", ""] ++ post) 0 (acc ++ [x]) := by
        simp [multilineLoop, hx]
      have hsub : hasTripleEmpty (xs ++ ["", ""]) = false := by
        cases htr : hasTripleEmpty (xs ++ ["", ""]) with
        | false => rfl
        | true =>
          exfalso
          have hbig := hasTripleEmpty_append_left (List.replicate cnt "" ++ [x]) _ htr
          rw [show (List.replicate cnt "" ++ [x]) ++ (xs ++ ["", ""]) =
              List.replicate cnt "" ++ (x :: xs) ++ ["", ""] by simp] at hbig
          rw [h] at hbig
          cases hbig
      rw [hstep]
      rw [ih 0 (acc ++ [x]) (by omega) (by simpa using hsub)]
      simp

/-- C9: on any input that contains three consecutive empty lines,
multiline_input stops at the first such run and returns exactly the lines
strictly before it, joined with newline; none of the three terminating
empty lines reaches the result. -/
theorem multiline_input_first_triple (pre post : List String)
    (h : hasTripleEmpty (pre ++ ["", ""]) = false) :
    multiline_input (pre ++ ["", "", ""] ++ post) = some ("\n".intercalate pre) := by
  unfold multiline_input
  rw [multilineLoop_reaches post pre 0 [] (by omega) (by simpa using h)]
  simp only [Option.map_some']
  congr 1
  rw [show ([] : List String) ++ pre ++ ["", ""] = (pre ++ [""]) ++ [""] by simp]
  rw [List.dropLast_concat, List.dropLast_concat]

/-- Witness for the C9 theorem at a concrete input. -/
theorem multiline_input_first_triple_witness :
    multiline_input ["note one", "", "note two", "", "", "", "ignored tail"] =
      some ("\n".intercalate ["note one", "", "note two"]) :=
  multiline_input_first_triple ["note one", "", "note two"] ["ignored tail"] (by decide)

/-- C7 counterexample: over the empty vault, two adds both requesting the
alias g1, run under the alternating schedule, finish in a vault state that
matches neither serial order — the duplicate check and the inserts of one
add are not one atomic unit. -/
theorem add_check_insert_not_atomic :
    ¬ checkThenInsertSerializable "m" reqA reqB emptyVault := by
  intro h
  have hc := h [true, false, true, false, true, false] (by decide) (by decide)
  rcases hc with h1 | h1 <;> revert h1 <;> decide

/-- One database step never removes a registered alias. -/
theorem stepProc_alias_mono (masterPasswd : String) (r : Req) (v : Vault) (p : Proc)
    (a : String) (ha : a ∈ aliasNames v) :
    a ∈ aliasNames (stepProc masterPasswd r v p).1 := by
  unfold stepProc
  cases p.pc with
  | ready =>
    cases firstDup v r.mnemonics <;> exact ha
  | checked => exact ha
  | credDone =>
    cases hcm : commitMnemonics v (r.mnemonics.map fun m => Mnemonic.mk m p.credId) with
    | none => exact ha
    | some v2 =>
      obtain ⟨_, hm, _, _⟩ := commitMnemonics_spec _ hcm
      simp only [aliasNames, hm, List.map_append, List.mem_append]
      exact Or.inl ha
  | done => exact ha
  | stopped => exact ha

/-- One step of the process holding request r preserves the shared-alias
invariant clauses, with q the other process, left untouched. -/
theorem stepProc_preserves_inv (masterPasswd : String) (r : Req) (g : String)
    (hg : g ∈ r.mnemonics) (v : Vault) (p q : Proc)
    (hp : p.pc = PC.done → g ∈ aliasNames v)
    (hq : q.pc = PC.done → g ∈ aliasNames v)
    (hnb : ¬(p.pc = PC.done ∧ q.pc = PC.done)) :
    ((stepProc masterPasswd r v p).2.pc = PC.done →
      g ∈ aliasNames (stepProc masterPasswd r v p).1) ∧
    (q.pc = PC.done → g ∈ aliasNames (stepProc masterPasswd r v p).1) ∧
    ¬((stepProc masterPasswd r v p).2.pc = PC.done ∧ q.pc = PC.done) := by
  refine ⟨?_, fun hq2 => stepProc_alias_mono masterPasswd r v p g (hq hq2), ?_⟩ <;>
    obtain ⟨ppc, pchk, pcid⟩ := p <;>
    cases ppc with
  | ready =>
    cases hfd : firstDup v r.mnemonics with
    | some d => simp [stepProc, hfd]
    | none => simp [stepProc, hfd]
  | checked => simp [stepProc]
  | credDone =>
    cases hcm : commitMnemonics v (r.mnemonics.map fun m => Mnemonic.mk m pcid) with
    | none => simp [stepProc, hcm]
    | some v2 =>
      obtain ⟨_, hm, hpre, _⟩ := commitMnemonics_spec _ hcm
      have hfree : g ∉ aliasNames v := hpre _ (List.mem_map.mpr ⟨g, hg, rfl⟩)
      simp only [stepProc, hcm]
      first
      | · intro _
          simp only [aliasNames, hm, List.map_append, List.mem_append]
          right
          simp only [List.map_map, List.mem_map, Function.comp]
          exact ⟨g, hg, rfl⟩
      | · rintro ⟨_, hq2⟩
          exact hfree (hq hq2)
  | done =>
    simp only [stepProc]
    first
    | exact fun _ => hp rfl
    | exact fun hc => hnb ⟨rfl, hc.2⟩
  | stopped => simp [stepProc]

/-- Every scheduler step preserves the shared-alias invariant. -/
theorem stepSys_preserves_inv (masterPasswd : String) (r1 r2 : Req) (g : String)
    (h1 : g ∈ r1.mnemonics) (h2 : g ∈ r2.mnemonics) (s : Sys) (b : Bool)
    (hI : SameAliasInv g s) : SameAliasInv g (stepSys masterPasswd r1 r2 s b) := by
  obtain ⟨hp1, hp2, hnb⟩ := hI
  cases b with
  | true =>
    obtain ⟨c1, c2, c3⟩ :=
      stepProc_preserves_inv masterPasswd r1 g h1 s.vault s.p1 s.p2 hp1 hp2 hnb
    exact ⟨c1, c2, c3⟩
  | false =>
    obtain ⟨c1, c2, c3⟩ :=
      stepProc_preserves_inv masterPasswd r2 g h2 s.vault s.p2 s.p1 hp2 hp1
        (fun hc => hnb ⟨hc.2, hc.1⟩)
    exact ⟨c2, c1, fun hc => c3 ⟨hc.2, hc.1⟩⟩

/-- Running any schedule preserves the shared-alias invariant. -/
theorem runSys_preserves_inv (masterPasswd : String) (r1 r2 : Req) (g : String)
    (h1 : g ∈ r1.mnemonics) (h2 : g ∈ r2.mnemonics) :
    ∀ (sched : List Bool) (s : Sys), SameAliasInv g s →
      SameAliasInv g (runSys masterPasswd r1 r2 s sched) := by
  intro sched
  induction sched with
  | nil => intro s hI; exact hI
  | cons b bs ih =>
    intro s hI
    exact ih _ (stepSys_preserves_inv masterPasswd r1 r2 g h1 h2 s b hI)

/-- C7 amended: the duplicate check and the inserts run as separate
transactions, so both concurrent adds can pass the check for the same
alias; still, under the unique-constraint store no schedule lets the two
adds both finish successfully when they request a common alias. -/
theorem add_concurrent_never_both_succeed (masterPasswd : String) (r1 r2 : Req) (v : Vault)
    (g : String) (h1 : g ∈ r1.mnemonics) (h2 : g ∈ r2.mnemonics) (sched : List Bool) :
    ¬((runSys masterPasswd r1 r2 (initSys v) sched).p1.pc = PC.done ∧
      (runSys masterPasswd r1 r2 (initSys v) sched).p2.pc = PC.done) := by
  have hinit : SameAliasInv g (initSys v) := by
    refine ⟨fun hc => ?_, fun hc => ?_, fun hc => ?_⟩
    · simp [initSys] at hc
    · simp [initSys] at hc
    · obtain ⟨hc1, _⟩ := hc
      simp [initSys] at hc1
  exact (runSys_preserves_inv masterPasswd r1 r2 g h1 h2 sched (initSys v) hinit).2.2

/-- Witness for the amended C7 theorem at a concrete input. -/
theorem add_concurrent_never_both_succeed_witness :
    ¬((runSys "m" reqA reqB (initSys emptyVault)
        [true, false, true, false, true, false]).p1.pc = PC.done ∧
      (runSys "m" reqA reqB (initSys emptyVault)
        [true, false, true, false, true, false]).p2.pc = PC.done) :=
  add_concurrent_never_both_succeed "m" reqA reqB emptyVault "g1" (by decide) (by decide)
    [true, false, true, false, true, false]
